import Mathlib

/-!
Verification of the SBOMGen package identity-resolution and merge engine
(`backend/app/services/database_service.py` and
`backend/app/services/sbom_merge.py`), shallowly embedded in Lean 4.

The engine reads package rows and dependency rows out of a relational
store; here those fetched rows are the inputs of the embedded functions.
SQL constructs are modelled directly: `GROUP BY` becomes grouping over
first-occurrence-deduplicated keys, window counts become list counts,
`ORDER BY` becomes a stable sort by the same key, and the PostgreSQL
`levenshtein` extension function is the standard unit-cost edit distance.
Floating-point similarity arithmetic is modelled with exact rationals.
-/

namespace SBOMGen

/-- One row of the `packages` table for a scan, as fetched by the service
queries.  Nullable text columns (`purl`, `cpe`, `description`,
`component_type`) are modelled as strings where `""` stands for SQL NULL /
Python `None` (the code only ever tests their truthiness, which identifies
the two).  `licenses` holds the already-parsed JSON list of license
identifiers; `[]` stands for a NULL / empty / unparsable column.  The
`primary` column is a text column holding `"true"` for the root record. -/
structure PkgRow where
  name : String
  version : String
  purl : String
  cpe : String
  licenses : List String
  component_type : String
  description : String
  match_status : String
  original_ref : String
  scanner_name : String
  primaryFlag : String
  deriving Repr, DecidableEq

/-- One row of the `dependencies` table joined with `packages`, as fetched
by the dependency query of `_custom_merge`: the scanner and source-local ref of
the parent and child endpoints. -/
structure DepRow where
  parent_scanner : String
  parent_ref : String
  child_scanner : String
  child_ref : String
  deriving Repr, DecidableEq

/-! ### Generic helpers: first-occurrence dedup, stable sort, assoc lookup -/

/-- Deduplication keeping the first occurrence of each element, in order —
the behaviour of the "seen set" loops in the Python code and (as a canonical choice of
order) of SQL `DISTINCT` / `GROUP BY` key enumeration. -/
def dedupFirst [DecidableEq α] (l : List α) : List α :=
  l.foldl (fun acc a => if a ∈ acc then acc else acc ++ [a]) []

/-- Stable insertion of `a` into `l`: `a` goes in front of the first
element it compares `le` to. -/
def orderedInsert (le : α → α → Bool) (a : α) : List α → List α
  | [] => [a]
  | b :: l => if le a b then a :: b :: l else b :: orderedInsert le a l

/-- Stable sort by a boolean comparator — the model of SQL `ORDER BY`
(stability being a canonical choice among the orders the database may
return for tied keys). -/
def stableSort (le : α → α → Bool) : List α → List α
  | [] => []
  | a :: l => orderedInsert le a (stableSort le l)

/-- Association-list lookup, latest binding first — the model of a Python
dict whose `[k] = v` assignments are prepended. -/
def lookupAssoc [DecidableEq κ] (m : List (κ × ν)) (k : κ) : Option ν :=
  match m.find? (fun kv => kv.1 = k) with
  | some kv => some kv.2
  | none => none

/-! ### Levenshtein edit distance (PostgreSQL `levenshtein`, unit costs) -/

/-- One dynamic-programming step of the unit-cost edit distance: given the
distances `prev` from the previous prefix of the first string to every
prefix of `ys`, extend by the character `x`.  `diag` is the entry
diagonally up-left, `left` the entry just computed to the left. -/
def levStepGo (x : Char) : Nat → List Nat → List Char → Nat → List Nat
  | _, [], _, _ => []
  | _, _, [], _ => []
  | diag, pj :: prest, y :: yrest, left =>
    let v := min (diag + (if x = y then 0 else 1)) (min (pj + 1) (left + 1))
    v :: levStepGo x pj prest yrest v

def levStep (x : Char) (ys : List Char) (prev : List Nat) : List Nat :=
  match prev with
  | [] => []
  | p0 :: ps => (p0 + 1) :: levStepGo x p0 ps ys (p0 + 1)

/-- Unit-cost Levenshtein distance between two strings, computed by the
classic row-by-row dynamic program (structurally recursive so that it
evaluates inside the kernel). -/
def levenshtein (a b : String) : Nat :=
  (a.data.foldl (fun row x => levStep x b.data row) (List.range (b.data.length + 1))).getLastD 0

/-! ### String helpers modelling Python `str.lower` and `in` (substring) -/

/-- ASCII lower-casing, character by character (Python `str.lower()` on the
ASCII package names this code handles). -/
def lowerStr (s : String) : String := ⟨s.data.map Char.toLower⟩

def isPrefixCL : List Char → List Char → Bool
  | [], _ => true
  | _ :: _, [] => false
  | a :: as, b :: bs => a == b && isPrefixCL as bs

def containsCL (pat : List Char) : List Char → Bool
  | [] => isPrefixCL pat []
  | b :: t => isPrefixCL pat (b :: t) || containsCL pat t

/-- Model of the Python substring test `pat in s`. -/
def containsStr (s pat : String) : Bool := containsCL pat.data s.data

/-- Lexicographic strict comparison of character lists — the model of
text ordering in SQL `ORDER BY` and comparison predicates (C collation). -/
def charListLt : List Char → List Char → Bool
  | [], [] => false
  | [], _ :: _ => true
  | _ :: _, [] => false
  | a :: as, b :: bs => if a < b then true else if b < a then false else charListLt as bs

def strLtB (a b : String) : Bool := charListLt a.data b.data

def strLeB (a b : String) : Bool := strLtB a b || a == b

/-! ### `DatabaseService.find_exact_matches` -/

/-- One row/entry of the exact-match report: a `(name, version)` group
found by more than one scanner, its distinct-scanner count, per-scanner
duplicate counts, the distinct scanners, and the `"exact"` tag the Python
layer adds to each dict. -/
structure ExactEntry where
  name : String
  version : String
  scanner_count : Nat
  duplicate_counts : List (String × Nat)
  found_in : List String
  match_type : String
  deriving Repr, DecidableEq

/-- The distinct scanners contributing a row with the given
`(name, version)` — `array_agg(DISTINCT scanner_name)` per group. -/
def groupScanners (rows : List PkgRow) (n v : String) : List String :=
  dedupFirst ((rows.filter (fun r => r.name == n && r.version == v)).map (·.scanner_name))

/-- The entry `find_exact_matches` reports for one qualifying
`(name, version)` group. -/
def exactEntryFor (rows : List PkgRow) (n v : String) : ExactEntry :=
  let scanners := groupScanners rows n v
  { name := n, version := v, scanner_count := scanners.length,
    duplicate_counts := scanners.map (fun s =>
      (s, (rows.filter (fun r =>
        r.name == n && r.version == v && r.scanner_name == s)).length)),
    found_in := scanners, match_type := "exact" }

/-- Model of `DatabaseService.find_exact_matches`: group all package rows of the
scan by `(name, version)`; every group touched by more than one distinct
scanner becomes one entry, ordered by scanner count descending then name. -/
def findExactMatches (rows : List PkgRow) : List ExactEntry :=
  let keys := dedupFirst (rows.map (fun r => (r.name, r.version)))
  let entries := keys.filterMap (fun k =>
    if 1 < (groupScanners rows k.1 k.2).length then some (exactEntryFor rows k.1 k.2)
    else none)
  stableSort (fun a b =>
    decide (b.scanner_count < a.scanner_count) ||
      (a.scanner_count == b.scanner_count && strLeB a.name b.name)) entries

/-! ### `DatabaseService.find_fuzzy_matches` -/

/-- Normalized Levenshtein similarity of two strings, `0` when both are
empty — the `CASE WHEN GREATEST(LENGTH(..), LENGTH(..)) = 0 THEN 0 ELSE
1.0 - levenshtein(..) / GREATEST(..) END` expression of the query. -/
def strSimilarity (a b : String) : ℚ :=
  if max a.length b.length = 0 then 0
  else 1 - (levenshtein a b : ℚ) / (max a.length b.length : ℚ)

/-- Overall similarity as selected by the query: mean of name and version similarity. -/
def overallSimilarity (n1 v1 n2 v2 : String) : ℚ :=
  (strSimilarity n1 n2 + strSimilarity v1 v2) / 2

/-- A distinct `(name, version, scanner_name)` combination of the scan. -/
structure DistinctPkg where
  name : String
  version : String
  scanner : String
  deriving Repr, DecidableEq

def distinctPackages (rows : List PkgRow) : List DistinctPkg :=
  dedupFirst (rows.map (fun r => ⟨r.name, r.version, r.scanner_name⟩))

/-- One result row of the fuzzy-match query (the Python layer repackages
these rows field for field into dicts, rounding the scores for display). -/
structure FuzzyRow where
  name1 : String
  version1 : String
  scanner1 : String
  name2 : String
  version2 : String
  scanner2 : String
  trgm_name_sim : ℚ
  trgm_version_sim : ℚ
  name_similarity : ℚ
  version_similarity : ℚ
  overall_similarity : ℚ
  deriving Repr, DecidableEq

/-- The `fuzzy_candidates` CTE: ordered cross-scanner pairs of distinct
packages passing the pg_trgm pre-filter, minus exact pairs (the
`exact_match_pairs` anti-join) and identical `(name, version)` pairs.
`trgm` abstracts the external pg_trgm `similarity` function, which the
repository uses only as a pre-filter. -/
def fuzzyCandidates (trgm : String → String → ℚ) (rows : List PkgRow) :
    List (DistinctPkg × DistinctPkg) :=
  let dp := distinctPackages rows
  dp.flatMap (fun p1 =>
    (dp.filter (fun p2 =>
      strLtB p1.scanner p2.scanner &&
      !(p1.name == p2.name && p1.version == p2.version) &&
      decide (trgm p1.name p2.name > 7/10) &&
      decide (trgm p1.version p2.version > 1/2) &&
      (!(p1.name == p2.name) || !(p1.version == p2.version)))).map (fun p2 => (p1, p2)))

def mkFuzzyRow (trgm : String → String → ℚ) (p1 p2 : DistinctPkg) : FuzzyRow :=
  { name1 := p1.name, version1 := p1.version, scanner1 := p1.scanner,
    name2 := p2.name, version2 := p2.version, scanner2 := p2.scanner,
    trgm_name_sim := trgm p1.name p2.name,
    trgm_version_sim := trgm p1.version p2.version,
    name_similarity := strSimilarity p1.name p2.name,
    version_similarity := strSimilarity p1.version p2.version,
    overall_similarity := overallSimilarity p1.name p1.version p2.name p2.version }

/-- Model of `DatabaseService.find_fuzzy_matches`: score the surviving candidate
pairs with normalized Levenshtein similarity, keep those with overall
similarity strictly above the threshold (default `0.8`), order by overall
similarity descending, and cap at 1000 rows. -/
def findFuzzyMatches (trgm : String → String → ℚ) (rows : List PkgRow)
    (threshold : ℚ) : List FuzzyRow :=
  let scored := (fuzzyCandidates trgm rows).map (fun pc => mkFuzzyRow trgm pc.1 pc.2)
  let filtered := scored.filter (fun e => decide (e.overall_similarity > threshold))
  (stableSort (fun a b => decide (b.overall_similarity ≤ a.overall_similarity)) filtered).take 1000

/-! ### `DatabaseService.find_unique_packages` and `get_package_counts` -/

/-- Append `x` to the group of key `s`, creating the group at the end if
absent — the behaviour of a Python insertion-ordered dict of lists. -/
def addGroup : List (String × List β) → String → β → List (String × List β)
  | [], s, x => [(s, [x])]
  | (q, xs) :: rest, s, x =>
    if q == s then (q, xs ++ [x]) :: rest else (q, xs) :: addGroup rest s x

/-- Model of `DatabaseService.find_unique_packages`: distinct `(name, version,
scanner)` combinations whose `(name, version)` is reported by exactly one
distinct scanner, ordered by scanner then name, grouped per scanner. -/
def findUniquePackages (rows : List PkgRow) :
    List (String × List (String × String)) :=
  let triples := distinctPackages rows
  let uniques := triples.filter (fun t => (groupScanners rows t.name t.version).length == 1)
  let sorted := stableSort (fun a b =>
    strLtB a.scanner b.scanner ||
      (a.scanner == b.scanner && strLeB a.name b.name)) uniques
  sorted.foldl (fun acc t => addGroup acc t.scanner (t.name, t.version)) []

/-- Model of `DatabaseService.get_package_counts`: total row count per scanner. -/
def getPackageCounts (rows : List PkgRow) : List (String × Nat) :=
  (dedupFirst (rows.map (·.scanner_name))).map
    (fun s => (s, (rows.filter (fun r => r.scanner_name == s)).length))

/-! ### `DatabaseService.analyze_scan_packages` -/

structure AnalysisResult where
  common_packages : List ExactEntry
  fuzzy_matches : List FuzzyRow
  unique_packages : List (String × List (String × String))
  total_counts : List (String × Nat)
  scores : List (String × ℚ)
  deriving Repr

/-- Model of `DatabaseService.analyze_scan_packages`: run the three classifiers and
the counts, then compute the per-scanner agreement score
`max(0, common_ratio * 100 - unique_ratio * 10)` with
`common_ratio = (exact_count + fuzzy_count * 0.5) / total`; a scanner
with zero total packages scores `0`. -/
def analyzeScanPackages (trgm : String → String → ℚ) (rows : List PkgRow) :
    AnalysisResult :=
  let exact := findExactMatches rows
  let fuzzy := findFuzzyMatches trgm rows (4/5)
  let unique := findUniquePackages rows
  let totals := getPackageCounts rows
  let scores := totals.map (fun st =>
    if st.2 = 0 then (st.1, (0 : ℚ))
    else
      let exact_count : Nat := (exact.filter (fun m => m.found_in.contains st.1)).length
      let fuzzy_count : Nat := (fuzzy.filter (fun m => m.scanner1 == st.1 || m.scanner2 == st.1)).length
      let unique_count : Nat := ((lookupAssoc unique st.1).getD []).length
      let common_ratio : ℚ := (exact_count + fuzzy_count * (1/2)) / st.2
      let unique_ratio : ℚ := (unique_count : ℚ) / st.2
      (st.1, max 0 (common_ratio * 100 - unique_ratio * 10)))
  ⟨exact, fuzzy, unique, totals, scores⟩

/-! ### `SBOMMerge` helpers: noise predicate, SPDX validation, components -/

/-- The fixed noise-pattern list of `SBOMMerge._is_github_action_package`. -/
def githubActionPatterns : List String :=
  ["actions/", "github/", ".github/", "workflow/", "action-",
   "/app/temp", "app/temp", "temp", ".yaml", "setup", "com.github"]

/-- Model of `SBOMMerge._is_github_action_package` at its only `_custom_merge` call
site, which passes the package name positionally (no package dict): true
when the lower-cased name contains any of the fixed patterns. -/
def isGithubActionPackage (package_name : String) : Bool :=
  githubActionPatterns.any (fun pattern => containsStr (lowerStr package_name) pattern)

/-- The `valid_spdx_licenses` set from `SBOMMerge.__init__`. -/
def validSpdxLicenses : List String :=
  ["MIT", "Apache-2.0", "GPL-2.0", "GPL-3.0", "BSD-2-Clause", "BSD-3-Clause",
   "ISC", "LGPL-2.1", "LGPL-3.0", "MPL-2.0", "CDDL-1.0", "EPL-1.0", "EPL-2.0",
   "AGPL-3.0", "Unlicense", "CC0-1.0", "WTFPL", "Zlib", "BSL-1.0", "AFL-3.0",
   "Apache-1.1", "Artistic-2.0", "CC-BY-4.0", "CC-BY-SA-4.0", "PSF-2.0",
   "Python-2.0", "Ruby", "Vim", "0BSD", "BlueOak-1.0.0", "bzip2-1.0.6"]

/-- Model of `SBOMMerge._is_valid_spdx_license`. -/
def isValidSpdxLicense (license_id : String) : Bool :=
  if license_id == "" then false
  else
    let base_license := (license_id.replace "-only" "").replace "-or-later" ""
    validSpdxLicenses.contains license_id ||
      validSpdxLicenses.contains base_license ||
      license_id.startsWith "LicenseRef-"

/-- A CycloneDX license entry: structured SPDX `id` or free-text `name`. -/
inductive LicenseEntry where
  | spdxId (s : String)
  | freeName (s : String)
  deriving Repr, DecidableEq

/-- A merged CycloneDX component as assembled by `_build_component`;
optional dict keys become `Option` fields. -/
structure Component where
  bomRef : String
  type : String
  name : String
  version : String
  purl : Option String
  cpe : Option String
  description : Option String
  licenses : Option (List LicenseEntry)
  properties : List (String × String)
  deriving Repr, DecidableEq

/-- The canonical reference `_build_component` (and the duplicate branch of
the second pass) synthesizes: `f"pkg:{purl}"` when the purl is truthy,
else `f"{name}@{version}"`. -/
def refOf (pkg : PkgRow) : String :=
  if pkg.purl ≠ "" then "pkg:" ++ pkg.purl else pkg.name ++ "@" ++ pkg.version

/-- The `COUNT(*) OVER (PARTITION BY name, version)` window value of the
merge query: how many package rows of the scan share this `(name,
version)` (rows from the same scanner count separately). -/
def occCount (rows : List PkgRow) (n v : String) : Nat :=
  (rows.filter (fun r => r.name == n && r.version == v)).length

/-- Model of `SBOMMerge._build_component`: assemble the CycloneDX component dict
for one package row (`rows` supplies the occurrence-count window). -/
def buildComponent (rows : List PkgRow) (pkg : PkgRow) : Component :=
  { bomRef := refOf pkg,
    type := if pkg.component_type ≠ "" then pkg.component_type else "library",
    name := pkg.name,
    version := pkg.version,
    purl := if pkg.purl ≠ "" then some pkg.purl else none,
    cpe := if pkg.cpe ≠ "" then some pkg.cpe else none,
    description := if pkg.description ≠ "" then some pkg.description else none,
    licenses :=
      if pkg.licenses ≠ [] then
        let valid_licenses := pkg.licenses.map (fun lic =>
          if isValidSpdxLicense lic then LicenseEntry.spdxId lic
          else LicenseEntry.freeName lic)
        if valid_licenses ≠ [] then some valid_licenses else none
      else none,
    properties :=
      [("sbomgen:match_status", pkg.match_status),
       ("sbomgen:occurrence_count", toString (occCount rows pkg.name pkg.version)),
       ("sbomgen:scanner_name", pkg.scanner_name)] }

/-- The unsupported-namespace guard testing whether the lower-cased purl
contains the `pkg:githubactions` marker (with the Python truthiness test
on the purl). -/
def hasGithubActionsPurl (pkg : PkgRow) : Bool :=
  pkg.purl ≠ "" && containsStr (lowerStr pkg.purl) "pkg:githubactions"

/-! ### `SBOMMerge._custom_merge`: two-pass selection -/

/-- The mutable selection state of `_custom_merge`: the merged component
list, the seen `(name, version)` keys, the `(scanner, original_ref) →
bom-ref` map, and the captured primary component. -/
structure MergeState where
  components : List Component
  seen : List (String × String)
  idMap : List ((String × String) × String)
  primaryComp : Option Component
  deriving Repr

/-- Include one package row: append its component, mark its key seen,
register its bom-ref, and capture it as primary when it is the first
primary. -/
def addPkg (rows : List PkgRow) (pkg : PkgRow) (st : MergeState) : MergeState :=
  let c := buildComponent rows pkg
  { components := st.components ++ [c],
    seen := st.seen ++ [(pkg.name, pkg.version)],
    idMap := ((pkg.scanner_name, pkg.original_ref), c.bomRef) :: st.idMap,
    primaryComp :=
      if pkg.primaryFlag == "true" && st.primaryComp.isNone then some c
      else st.primaryComp }

/-- FIRST PASS of `_custom_merge`: walk the ordered rows and include the
first primary package regardless of match status, skipping GitHub-Actions
purls, then stop (`break`). -/
def firstPass (rows : List PkgRow) : List PkgRow → MergeState → MergeState
  | [], st => st
  | pkg :: rest, st =>
    if pkg.primaryFlag == "true" && st.primaryComp.isNone then
      if (pkg.name, pkg.version) ∉ st.seen then
        if hasGithubActionsPurl pkg then firstPass rows rest st
        else addPkg rows pkg st
      else firstPass rows rest st
    else firstPass rows rest st

/-- The duplicate branch of the second pass: re-register the bom-ref of
this row for its `(scanner, original_ref)` and, when the duplicate is the
primary and none was captured yet, capture the already-added component of
the same `(name, version)`. -/
def seenStep (pkg : PkgRow) (st : MergeState) : MergeState :=
  { components := st.components,
    seen := st.seen,
    idMap := ((pkg.scanner_name, pkg.original_ref), refOf pkg) :: st.idMap,
    primaryComp :=
      if pkg.primaryFlag == "true" && st.primaryComp.isNone then
        match st.components.find? (fun comp =>
          comp.name == pkg.name && comp.version == pkg.version) with
        | some comp => some comp
        | none => st.primaryComp
      else st.primaryComp }

/-- SECOND PASS of `_custom_merge`: process every row in order — duplicate
keys only re-register their ref, `exact` always included, `fuzzy` included
when the occurrence count is at least 2, `unique` included per policy,
GitHub-Actions purls always skipped. -/
def secondPass (rows : List PkgRow) (include_all_unique exclude_github_actions : Bool) :
    List PkgRow → MergeState → MergeState
  | [], st => st
  | pkg :: rest, st =>
    if (pkg.name, pkg.version) ∈ st.seen then
      secondPass rows include_all_unique exclude_github_actions rest (seenStep pkg st)
    else if pkg.match_status == "exact" then
      if hasGithubActionsPurl pkg then
        secondPass rows include_all_unique exclude_github_actions rest st
      else
        secondPass rows include_all_unique exclude_github_actions rest (addPkg rows pkg st)
    else if pkg.match_status == "fuzzy" then
      if 2 ≤ occCount rows pkg.name pkg.version then
        if hasGithubActionsPurl pkg then
          secondPass rows include_all_unique exclude_github_actions rest st
        else
          secondPass rows include_all_unique exclude_github_actions rest (addPkg rows pkg st)
      else
        secondPass rows include_all_unique exclude_github_actions rest st
    else if pkg.match_status == "unique" then
      if exclude_github_actions && isGithubActionPackage pkg.name then
        secondPass rows include_all_unique exclude_github_actions rest st
      else if include_all_unique then
        if hasGithubActionsPurl pkg then
          secondPass rows include_all_unique exclude_github_actions rest st
        else
          secondPass rows include_all_unique exclude_github_actions rest (addPkg rows pkg st)
      else
        secondPass rows include_all_unique exclude_github_actions rest st
    else
      secondPass rows include_all_unique exclude_github_actions rest st

/-- The merge query ordering `ORDER BY match_status DESC, occurrence_count DESC,
name, version` (all sort keys text/number, `DESC` on the status string
putting `unique` before `fuzzy` before `exact`). -/
def mergeOrder (rows : List PkgRow) (a b : PkgRow) : Bool :=
  strLtB b.match_status a.match_status ||
    (a.match_status == b.match_status &&
      (decide (occCount rows b.name b.version < occCount rows a.name a.version) ||
        (occCount rows a.name a.version == occCount rows b.name b.version &&
          (strLtB a.name b.name ||
            (a.name == b.name && strLeB a.version b.version)))))

/-! ### `SBOMMerge._custom_merge`: dependency reconciliation -/

/-- One entry of the output `dependencies` list. -/
structure DepOut where
  ref : String
  dependsOn : List String
  deriving Repr, DecidableEq

/-- Translate the stored dependency rows through the `(scanner,
original_ref) → bom-ref` map, dropping edges with an unresolved (or
falsy) endpoint — the first loop of step 4. -/
def validDepPairs (idMap : List ((String × String) × String)) (deps : List DepRow) :
    List (String × String) :=
  deps.filterMap (fun dep =>
    match lookupAssoc idMap (dep.parent_scanner, dep.parent_ref),
          lookupAssoc idMap (dep.child_scanner, dep.child_ref) with
    | some parent_ref, some child_ref =>
      if parent_ref == "" || child_ref == "" then none
      else some (parent_ref, child_ref)
    | _, _ => none)

/-- Consolidate the deduplicated edges by parent ref (a Python dict of
lists in insertion order) and deduplicate each `dependsOn` list
(`list(set(..))`, modelled with first-occurrence order). -/
def consolidateDeps (pairs : List (String × String)) : List DepOut :=
  let consolidated := pairs.foldl (fun acc pc => addGroup acc pc.1 pc.2) []
  consolidated.map (fun g => { ref := g.1, dependsOn := dedupFirst g.2 })

/-! ### `SBOMMerge._custom_merge`: document assembly -/

/-- Metadata of the merged document: timestamp (wall clock, passed in by
the caller of the embedding), constant tool identity, provenance
properties, and the captured primary component (a component dict is never
falsy, so the Python `if primary_component:` guard is its `isSome`). -/
structure Metadata where
  timestamp : String
  tools : List (String × String × String)
  properties : List (String × String)
  component : Option Component
  deriving Repr, DecidableEq

structure MergedSbom where
  bomFormat : String
  specVersion : String
  version : Nat
  metadata : Metadata
  components : List Component
  dependencies : List DepOut
  deriving Repr, DecidableEq

/-- The Python `str()` rendering of a bool, used for the policy-flag properties. -/
def pyBoolStr (b : Bool) : String := if b then "True" else "False"

/-- `SBOMMerge._custom_merge` on the fetched package and dependency rows:
sort, run the two selection passes, reconcile dependencies, and assemble
the CycloneDX document.  `now` is the wall-clock timestamp string. -/
def customMerge (scan_id now : String) (rows : List PkgRow) (deps : List DepRow)
    (include_all_unique exclude_github_actions : Bool) : MergedSbom :=
  let sorted := stableSort (mergeOrder rows) rows
  let st1 := firstPass rows sorted ⟨[], [], [], none⟩
  let st2 := secondPass rows include_all_unique exclude_github_actions sorted st1
  let pairs := dedupFirst (validDepPairs st2.idMap deps)
  let depsOut := consolidateDeps pairs
  { bomFormat := "CycloneDX",
    specVersion := "1.4",
    version := 1,
    metadata :=
      { timestamp := now,
        tools := [("SBOMGen", "SBOM Custom Merge Tool", "1.0.0")],
        properties :=
          [("sbomgen:scan_id", scan_id),
           ("sbomgen:total_components", toString st2.components.length),
           ("sbomgen:total_dependencies", toString depsOut.length),
           ("sbomgen:include_all_unique", pyBoolStr include_all_unique),
           ("sbomgen:exclude_github_actions", pyBoolStr exclude_github_actions)],
        component := st2.primaryComp },
    components := st2.components,
    dependencies := depsOut }

/-! ### `SBOMMerge.merge_sboms` and persistence -/

/-- The outcome `merge_sboms` hands its caller: the merged document, or
the error dict `{"error": .., "details": ..}`. -/
inductive MergeResult where
  | ok (sbom : MergedSbom)
  | error (msg details : String)
  deriving Repr, DecidableEq

/-- Model of `SBOMMerge.merge_sboms` together with the stored `merged_sbom` column
for the scan: `_custom_merge` unconditionally persists its document
(the `UPDATE scan_results SET merged_sbom = ..` before returning), then
`merge_sboms` checks `merged_sbom.get("components")` and returns the error
dict when the component list is empty.  Returns the caller-visible result
and the new value of the column (`_store` being its prior value). -/
def mergeSbomsRun (scan_id now : String) (rows : List PkgRow) (deps : List DepRow)
    (include_all_unique exclude_github_actions : Bool) (_store : Option MergedSbom) :
    MergeResult × Option MergedSbom :=
  let merged := customMerge scan_id now rows deps include_all_unique exclude_github_actions
  let newStore : Option MergedSbom := some merged
  if merged.components.isEmpty then
    (MergeResult.error "Custom merge failed to produce valid SBOM" "No components found",
     newStore)
  else (MergeResult.ok merged, newStore)

/-! ### Specification-side definitions used for refinement statements -/

/-- The noise-substring set as listed by the specification claim (the
source list additionally contains `"/app/temp"`, which is subsumed by
`"app/temp"`). -/
def noisePatternsSpec : List String :=
  ["actions/", "github/", ".github/", "workflow/", "action-",
   "app/temp", "temp", ".yaml", "setup", "com.github"]

/-- The noise predicate as worded by the specification claim: the
lower-cased name contains some member of the listed substring set. -/
def specNoiseMatch (package_name : String) : Bool :=
  noisePatternsSpec.any (fun pattern => containsStr (lowerStr package_name) pattern)

/-- The conditions under which the second pass of `_custom_merge` reaches
an `addPkg` call for a row (beyond the dynamic seen-set check): used to
state invariant-preservation lemmas about the pass. -/
def addCond (rows : List PkgRow) (include_all_unique exclude_github_actions : Bool)
    (pkg : PkgRow) : Prop :=
  (pkg.match_status = "exact" ∧ hasGithubActionsPurl pkg = false) ∨
  (pkg.match_status = "fuzzy" ∧ 2 ≤ occCount rows pkg.name pkg.version ∧
    hasGithubActionsPurl pkg = false) ∨
  (pkg.match_status = "unique" ∧
    (exclude_github_actions && isGithubActionPackage pkg.name) = false ∧
    include_all_unique = true ∧ hasGithubActionsPurl pkg = false)

/-- The reference invariant of the merge selection state: every bom-ref
registered in the id map is the bom-ref of a selected component, and every
seen key has a selected component whose bom-ref agrees with the reference
any row carrying that key would synthesize. -/
def RefInv (rows : List PkgRow) (st : MergeState) : Prop :=
  (∀ kv ∈ st.idMap, kv.2 ∈ st.components.map Component.bomRef) ∧
  (∀ k ∈ st.seen, ∃ c ∈ st.components,
    ∀ q ∈ rows, q.name = k.1 → q.version = k.2 → c.bomRef = refOf q)

/-- Pairwise sortedness under a boolean comparator: whether a list is one
of the orders the database may legitimately return for an `ORDER BY` whose
comparator admits ties. -/
def sortedByBool (le : α → α → Bool) : List α → Bool
  | [] => true
  | [_] => true
  | a :: b :: l => le a b && sortedByBool le (b :: l)

/-! ### Helper lemmas about the generic list combinators -/

theorem mem_foldl_dedup [DecidableEq α] (l acc : List α) (x : α) :
    x ∈ l.foldl (fun acc a => if a ∈ acc then acc else acc ++ [a]) acc ↔
      x ∈ acc ∨ x ∈ l := by
  induction l generalizing acc with
  | nil => simp
  | cons a l ih =>
    simp only [List.foldl_cons]
    by_cases h : a ∈ acc
    · rw [if_pos h, ih]
      constructor
      · rintro (hx | hx)
        · exact Or.inl hx
        · exact Or.inr (List.mem_cons_of_mem _ hx)
      · rintro (hx | hx)
        · exact Or.inl hx
        · rcases List.mem_cons.mp hx with rfl | hx
          · exact Or.inl h
          · exact Or.inr hx
    · rw [if_neg h, ih]
      constructor
      · rintro (hx | hx)
        · rcases List.mem_append.mp hx with hx | hx
          · exact Or.inl hx
          · exact Or.inr (List.mem_cons.mpr (Or.inl (List.mem_singleton.mp hx)))
        · exact Or.inr (List.mem_cons_of_mem _ hx)
      · rintro (hx | hx)
        · exact Or.inl (List.mem_append.mpr (Or.inl hx))
        · rcases List.mem_cons.mp hx with rfl | hx
          · exact Or.inl (List.mem_append.mpr (Or.inr (List.mem_singleton.mpr rfl)))
          · exact Or.inr hx

theorem mem_dedupFirst [DecidableEq α] (l : List α) (x : α) :
    x ∈ dedupFirst l ↔ x ∈ l := by
  unfold dedupFirst
  rw [mem_foldl_dedup]
  simp

theorem nodup_foldl_dedup [DecidableEq α] (l acc : List α) (h : acc.Nodup) :
    (l.foldl (fun acc a => if a ∈ acc then acc else acc ++ [a]) acc).Nodup := by
  induction l generalizing acc with
  | nil => exact h
  | cons a l ih =>
    simp only [List.foldl_cons]
    by_cases ha : a ∈ acc
    · rw [if_pos ha]; exact ih acc h
    · rw [if_neg ha]
      refine ih _ ?_
      simpa [List.nodup_append] using ⟨h, ha⟩

theorem nodup_dedupFirst [DecidableEq α] (l : List α) : (dedupFirst l).Nodup :=
  nodup_foldl_dedup l [] List.nodup_nil

/-- A `dedupFirst` result lists each distinct element once, so its length
is the number of distinct elements, expressed through `toFinset`. -/
theorem length_dedupFirst_eq_card [DecidableEq α] (l : List α) :
    (dedupFirst l).length = l.toFinset.card := by
  have hfin : (dedupFirst l).toFinset = l.toFinset := by
    ext x
    simp [List.mem_toFinset, mem_dedupFirst]
  calc (dedupFirst l).length = (dedupFirst l).toFinset.card :=
        (List.toFinset_card_of_nodup (nodup_dedupFirst l)).symm
    _ = l.toFinset.card := by rw [hfin]

/-- A list with two distinct members has at least two elements. -/
theorem two_le_length_of_mem_ne [DecidableEq α] {l : List α} {a b : α}
    (ha : a ∈ l) (hb : b ∈ l) (hne : a ≠ b) : 2 ≤ l.length := by
  match l, ha with
  | x :: t, ha =>
    rcases List.mem_cons.mp ha with rfl | ha'
    · rcases List.mem_cons.mp hb with rfl | hb'
      · exact absurd rfl hne
      · have : 1 ≤ t.length := List.length_pos.mpr (List.ne_nil_of_mem hb')
        simpa [List.length_cons] using Nat.succ_le_succ this
    · have : 1 ≤ t.length := List.length_pos.mpr (List.ne_nil_of_mem ha')
      simpa [List.length_cons] using Nat.succ_le_succ this

theorem mem_orderedInsert (le : α → α → Bool) (a x : α) (l : List α) :
    x ∈ orderedInsert le a l ↔ x = a ∨ x ∈ l := by
  induction l with
  | nil => simp [orderedInsert]
  | cons b l ih =>
    simp only [orderedInsert]
    by_cases h : le a b
    · rw [if_pos h]; simp [or_comm, or_assoc, or_left_comm]
    · rw [if_neg h]
      simp only [List.mem_cons, ih]
      tauto

theorem mem_stableSort (le : α → α → Bool) (l : List α) (x : α) :
    x ∈ stableSort le l ↔ x ∈ l := by
  induction l with
  | nil => simp [stableSort]
  | cons a l ih =>
    simp only [stableSort, mem_orderedInsert, ih, List.mem_cons]

theorem lookupAssoc_mem [DecidableEq κ] (m : List (κ × ν)) (k : κ) (v : ν)
    (h : lookupAssoc m k = some v) : ∃ kv ∈ m, kv.2 = v := by
  unfold lookupAssoc at h
  cases hf : m.find? (fun kv => kv.1 = k) with
  | none => rw [hf] at h; cases h
  | some kv =>
    rw [hf] at h
    exact ⟨kv, List.mem_of_find?_eq_some hf, by injection h⟩

theorem isPrefixCL_iff (p l : List Char) : isPrefixCL p l = true ↔ p <+: l := by
  induction p generalizing l with
  | nil => simp [isPrefixCL]
  | cons a as ih =>
    cases l with
    | nil => simp [isPrefixCL]
    | cons b bs =>
      simp only [isPrefixCL, Bool.and_eq_true, beq_iff_eq, ih, List.cons_prefix_cons]

theorem containsCL_iff (p l : List Char) : containsCL p l = true ↔ p <:+: l := by
  induction l with
  | nil =>
    simp only [containsCL, isPrefixCL_iff]
    constructor
    · exact fun h => h.isInfix
    · intro h
      rw [List.prefix_nil]
      exact List.eq_nil_of_infix_nil h
  | cons b t ih =>
    simp only [containsCL, Bool.or_eq_true, isPrefixCL_iff, ih]
    rw [List.infix_cons_iff]

/-- If `q` occurs inside `p`, any string containing `p` contains `q`. -/
theorem containsStr_of_infix {s p q : String} (hq : q.data <:+: p.data)
    (h : containsStr s p = true) : containsStr s q = true := by
  rw [containsStr, containsCL_iff] at h ⊢
  exact hq.trans h

/-! ### Lemmas about the merge passes -/

theorem addPkg_components (rows : List PkgRow) (pkg : PkgRow) (st : MergeState) :
    (addPkg rows pkg st).components = st.components ++ [buildComponent rows pkg] := rfl

theorem seenStep_components (pkg : PkgRow) (st : MergeState) :
    (seenStep pkg st).components = st.components := rfl

theorem addPkg_primaryComp_some (rows : List PkgRow) (pkg : PkgRow) (st : MergeState)
    (c : Component) (h : st.primaryComp = some c) :
    (addPkg rows pkg st).primaryComp = some c := by
  simp [addPkg, h]

theorem seenStep_primaryComp_some (pkg : PkgRow) (st : MergeState)
    (c : Component) (h : st.primaryComp = some c) :
    (seenStep pkg st).primaryComp = some c := by
  simp [seenStep, h]

/-- Invariance of a state predicate through the second pass, given that it
is preserved by the duplicate branch and by every inclusion the branch
conditions allow. -/
theorem secondPass_inv (rows : List PkgRow) (iu ega : Bool) (P : MergeState → Prop)
    (hseen : ∀ pkg st, P st → P (seenStep pkg st)) :
    ∀ (l : List PkgRow) (st : MergeState),
      (∀ pkg ∈ l, addCond rows iu ega pkg → ∀ st, P st → P (addPkg rows pkg st)) →
      P st → P (secondPass rows iu ega l st)
  | [], st => fun _ hP => hP
  | pkg :: rest, st => by
    intro hadd hP
    have hadd' : ∀ q ∈ rest, addCond rows iu ega q → ∀ st, P st → P (addPkg rows q st) :=
      fun q hq => hadd q (List.mem_cons_of_mem _ hq)
    have haddhead := hadd pkg (List.mem_cons_self _ _)
    simp only [secondPass]
    split_ifs <;> refine secondPass_inv rows iu ega P hseen rest _ hadd' ?_ <;>
      first
        | exact hseen pkg st hP
        | exact hP
        | (refine haddhead ?_ st hP
           unfold addCond
           simp_all)

/-- Invariance of a state predicate through the first pass, given that it
is preserved by the inclusion of any primary row with a supported purl. -/
theorem firstPass_inv (rows : List PkgRow) (P : MergeState → Prop) :
    ∀ (l : List PkgRow) (st : MergeState),
      (∀ pkg ∈ l, pkg.primaryFlag = "true" → hasGithubActionsPurl pkg = false →
        ∀ st, P st → P (addPkg rows pkg st)) →
      P st → P (firstPass rows l st)
  | [], st => fun _ hP => hP
  | pkg :: rest, st => by
    intro hadd hP
    have hadd' : ∀ q ∈ rest, q.primaryFlag = "true" → hasGithubActionsPurl q = false →
        ∀ st, P st → P (addPkg rows q st) :=
      fun q hq => hadd q (List.mem_cons_of_mem _ hq)
    simp only [firstPass]
    split_ifs with h1 h2 h3 <;>
      first
        | exact firstPass_inv rows P rest st hadd' hP
        | (refine hadd pkg (List.mem_cons_self _ _) ?_ ?_ st hP
           · simp only [Bool.and_eq_true, beq_iff_eq] at h1
             exact h1.1
           · simpa using h3)

theorem customMerge_components (scan_id now : String) (rows : List PkgRow)
    (deps : List DepRow) (iu ega : Bool) :
    (customMerge scan_id now rows deps iu ega).components =
      (secondPass rows iu ega (stableSort (mergeOrder rows) rows)
        (firstPass rows (stableSort (mergeOrder rows) rows) ⟨[], [], [], none⟩)).components :=
  rfl

theorem customMerge_metadata_component (scan_id now : String) (rows : List PkgRow)
    (deps : List DepRow) (iu ega : Bool) :
    (customMerge scan_id now rows deps iu ega).metadata.component =
      (secondPass rows iu ega (stableSort (mergeOrder rows) rows)
        (firstPass rows (stableSort (mergeOrder rows) rows) ⟨[], [], [], none⟩)).primaryComp :=
  rfl

theorem customMerge_dependencies (scan_id now : String) (rows : List PkgRow)
    (deps : List DepRow) (iu ega : Bool) :
    (customMerge scan_id now rows deps iu ega).dependencies =
      consolidateDeps (dedupFirst (validDepPairs
        (secondPass rows iu ega (stableSort (mergeOrder rows) rows)
          (firstPass rows (stableSort (mergeOrder rows) rows) ⟨[], [], [], none⟩)).idMap deps)) :=
  rfl

/-! ### C6 — idempotence of the merge (corrected) -/

/-- C6 counterexample: two cross-scanner duplicate rows of one
`(name, version)` tie on all four sort keys of the merge query, so both
row orders are legitimate results of fetching the same unchanged stored
data — yet the order decides which tied row is selected, and with it the
bom-ref, purl and provenance properties of the emitted component: two
merge runs with no intervening data change can produce different
component lists. -/
theorem merge_tie_order_counterexample :
    List.Perm
      ([⟨"foo", "1", "npm/foo", "", [], "", "", "exact", "A", "syft", "false"⟩,
        ⟨"foo", "1", "pypi/foo", "", [], "", "", "exact", "B", "trivy", "false"⟩] :
        List PkgRow)
      [⟨"foo", "1", "pypi/foo", "", [], "", "", "exact", "B", "trivy", "false"⟩,
       ⟨"foo", "1", "npm/foo", "", [], "", "", "exact", "A", "syft", "false"⟩] ∧
    sortedByBool
      (mergeOrder
        [⟨"foo", "1", "npm/foo", "", [], "", "", "exact", "A", "syft", "false"⟩,
         ⟨"foo", "1", "pypi/foo", "", [], "", "", "exact", "B", "trivy", "false"⟩])
      [⟨"foo", "1", "npm/foo", "", [], "", "", "exact", "A", "syft", "false"⟩,
       ⟨"foo", "1", "pypi/foo", "", [], "", "", "exact", "B", "trivy", "false"⟩] = true ∧
    sortedByBool
      (mergeOrder
        [⟨"foo", "1", "pypi/foo", "", [], "", "", "exact", "B", "trivy", "false"⟩,
         ⟨"foo", "1", "npm/foo", "", [], "", "", "exact", "A", "syft", "false"⟩])
      [⟨"foo", "1", "pypi/foo", "", [], "", "", "exact", "B", "trivy", "false"⟩,
       ⟨"foo", "1", "npm/foo", "", [], "", "", "exact", "A", "syft", "false"⟩] = true ∧
    (customMerge "s" "t"
      [⟨"foo", "1", "npm/foo", "", [], "", "", "exact", "A", "syft", "false"⟩,
       ⟨"foo", "1", "pypi/foo", "", [], "", "", "exact", "B", "trivy", "false"⟩]
      [] true false).components ≠
    (customMerge "s" "t"
      [⟨"foo", "1", "pypi/foo", "", [], "", "", "exact", "B", "trivy", "false"⟩,
       ⟨"foo", "1", "npm/foo", "", [], "", "", "exact", "A", "syft", "false"⟩]
      [] true false).components :=
  ⟨List.Perm.swap
    (⟨"foo", "1", "pypi/foo", "", [], "", "", "exact", "B", "trivy", "false"⟩ : PkgRow)
    (⟨"foo", "1", "npm/foo", "", [], "", "", "exact", "A", "syft", "false"⟩ : PkgRow) [],
   by decide, by decide, by decide⟩

/-- C6 amended: calling merge twice with no intervening data change yields
identical component and dependency lists provided the store returns the
package rows in the same order — the two lists are a deterministic
function of the fetched row order, the dependency rows and the policy
flags alone, independent of the scan id and the wall-clock timestamp, the
only other inputs of a merge run.  The sort key of the merge query does
not determine the relative order of cross-scanner duplicate rows, so
run-to-run identity is not guaranteed across differing tie orders. -/
theorem merge_deterministic_same_fetch (scan_id1 scan_id2 now1 now2 : String)
    (rows : List PkgRow) (deps : List DepRow)
    (include_all_unique exclude_github_actions : Bool) :
    (customMerge scan_id1 now1 rows deps include_all_unique exclude_github_actions).components =
      (customMerge scan_id2 now2 rows deps include_all_unique exclude_github_actions).components ∧
    (customMerge scan_id1 now1 rows deps include_all_unique exclude_github_actions).dependencies =
      (customMerge scan_id2 now2 rows deps include_all_unique exclude_github_actions).dependencies :=
  ⟨rfl, rfl⟩

/-! ### C7 — empty merges are reported as errors -/

/-- C7: whenever the merge selects zero components, `merge_sboms` returns
the distinct error dict instead of a successful-looking empty document. -/
theorem empty_merge_is_error (scan_id now : String) (rows : List PkgRow)
    (deps : List DepRow) (iu ega : Bool) (store : Option MergedSbom)
    (h : (customMerge scan_id now rows deps iu ega).components = []) :
    (mergeSbomsRun scan_id now rows deps iu ega store).1 =
      MergeResult.error "Custom merge failed to produce valid SBOM" "No components found" := by
  unfold mergeSbomsRun
  simp [h]

/-- Witness for C7: a unit with zero stored packages selects zero
components and is answered with the error result. -/
theorem empty_merge_is_error_witness :
    (customMerge "scan-1" "now" [] [] true false).components = [] ∧
    (mergeSbomsRun "scan-1" "now" [] [] true false none).1 =
      MergeResult.error "Custom merge failed to produce valid SBOM" "No components found" :=
  ⟨rfl, empty_merge_is_error "scan-1" "now" [] [] true false none rfl⟩

/-! ### C8 — persistence on error (corrected) -/

/-- C8 counterexample: on a unit with zero stored packages the merge
returns the error result, yet the previously empty store has been
overwritten with the empty canonical document — the stored merged
document is not unchanged on error. -/
theorem error_merge_persists_counterexample :
    (mergeSbomsRun "scan-1" "now" [] [] true false none).1 =
      MergeResult.error "Custom merge failed to produce valid SBOM" "No components found" ∧
    (mergeSbomsRun "scan-1" "now" [] [] true false none).2 =
      some (customMerge "scan-1" "now" [] [] true false) ∧
    (customMerge "scan-1" "now" [] [] true false).components = [] := by
  refine ⟨?_, ?_, rfl⟩ <;> rfl

/-- C8 amended: `_custom_merge` persists its document unconditionally
before `merge_sboms` inspects it, so the store always ends up holding the
freshly built document — also when the zero-components error is returned;
the error result is returned exactly when that persisted document has an
empty component list. -/
theorem merge_persistence_behaviour (scan_id now : String) (rows : List PkgRow)
    (deps : List DepRow) (iu ega : Bool) (store : Option MergedSbom) :
    (mergeSbomsRun scan_id now rows deps iu ega store).2 =
      some (customMerge scan_id now rows deps iu ega) ∧
    ((mergeSbomsRun scan_id now rows deps iu ega store).1 =
      MergeResult.error "Custom merge failed to produce valid SBOM" "No components found" ↔
      (customMerge scan_id now rows deps iu ega).components = []) := by
  constructor
  · by_cases hc : (customMerge scan_id now rows deps iu ega).components.isEmpty <;>
      simp [mergeSbomsRun, hc]
  · by_cases hc : (customMerge scan_id now rows deps iu ega).components = []
    · simp [mergeSbomsRun, hc]
    · have hc' : (customMerge scan_id now rows deps iu ega).components.isEmpty = false := by
        simpa [List.isEmpty_iff] using hc
      simp [mergeSbomsRun, hc', hc]

/-- When the scan has exactly one primary row and its purl is supported,
the first pass reduces to including exactly that row. -/
theorem firstPass_unique_primary (rows : List PkgRow) (p : PkgRow)
    (hprim : p.primaryFlag = "true") (hgh : hasGithubActionsPurl p = false) :
    ∀ l : List PkgRow, p ∈ l → (∀ q ∈ l, q.primaryFlag = "true" → q = p) →
      firstPass rows l ⟨[], [], [], none⟩ = addPkg rows p ⟨[], [], [], none⟩
  | [], hp, _ => absurd hp (List.not_mem_nil p)
  | h :: rest, hp, huniq => by
    by_cases hh : h.primaryFlag = "true"
    · have hEq : h = p := huniq h (List.mem_cons_self _ _) hh
      subst hEq
      simp [firstPass, hh, hgh]
    · have hb : (h.primaryFlag == "true") = false := by simpa using hh
      have hstep : firstPass rows (h :: rest) (⟨[], [], [], none⟩ : MergeState) =
          firstPass rows rest ⟨[], [], [], none⟩ := by
        simp [firstPass, hb]
      rw [hstep]
      have hp' : p ∈ rest := by
        rcases List.mem_cons.mp hp with rfl | h2
        · exact absurd hprim hh
        · exact h2
      exact firstPass_unique_primary rows p hprim hgh rest hp'
        (fun q hq => huniq q (List.mem_cons_of_mem _ hq))

/-! ### C4 — primary preservation -/

/-- C4: when exactly one package row across all sources is primary and its
identifier is outside the unsupported GitHub-Actions namespace, the merged
output carries that package both as `metadata.component` and in the
component list, for every match status and every combination of policy
flags. -/
theorem primary_preserved (scan_id now : String) (rows : List PkgRow)
    (deps : List DepRow) (include_all_unique exclude_github_actions : Bool)
    (p : PkgRow) (hp : p ∈ rows) (hprim : p.primaryFlag = "true")
    (huniq : ∀ q ∈ rows, q.primaryFlag = "true" → q = p)
    (hgh : hasGithubActionsPurl p = false) :
    (customMerge scan_id now rows deps include_all_unique exclude_github_actions).metadata.component =
      some (buildComponent rows p) ∧
    buildComponent rows p ∈ (customMerge scan_id now rows deps include_all_unique exclude_github_actions).components ∧
    (buildComponent rows p).name = p.name ∧ (buildComponent rows p).version = p.version := by
  have hp' : p ∈ stableSort (mergeOrder rows) rows := (mem_stableSort _ _ _).mpr hp
  have huniq' : ∀ q ∈ stableSort (mergeOrder rows) rows, q.primaryFlag = "true" → q = p :=
    fun q hq => huniq q ((mem_stableSort _ _ _).mp hq)
  have h1 : firstPass rows (stableSort (mergeOrder rows) rows) ⟨[], [], [], none⟩ =
      addPkg rows p ⟨[], [], [], none⟩ :=
    firstPass_unique_primary rows p hprim hgh _ hp' huniq'
  have hstp : (addPkg rows p ⟨[], [], [], none⟩).primaryComp = some (buildComponent rows p) := by
    simp [addPkg, hprim]
  have hstc : buildComponent rows p ∈ (addPkg rows p ⟨[], [], [], none⟩).components := by
    simp [addPkg]
  have hmain := secondPass_inv rows include_all_unique exclude_github_actions
    (fun st => st.primaryComp = some (buildComponent rows p) ∧ buildComponent rows p ∈ st.components)
    (fun pkg st hP => ⟨seenStep_primaryComp_some pkg st _ hP.1, by
      rw [seenStep_components]; exact hP.2⟩)
    (stableSort (mergeOrder rows) rows)
    (firstPass rows (stableSort (mergeOrder rows) rows) ⟨[], [], [], none⟩)
    (fun pkg _ _ st hP => ⟨addPkg_primaryComp_some rows pkg st _ hP.1, by
      rw [addPkg_components]; exact List.mem_append_left _ hP.2⟩)
    (by rw [h1]; exact ⟨hstp, hstc⟩)
  refine ⟨?_, ?_, rfl, rfl⟩
  · rw [customMerge_metadata_component]
    exact hmain.1
  · rw [customMerge_components]
    exact hmain.2

/-- Witness for C4: a scan with one primary `unique`-status row and one
other row; the primary ends up in the metadata and the component list even
though unique packages are not included by the policy. -/
theorem primary_preserved_witness :
    (customMerge "s" "t"
        [⟨"dep1", "2", "", "", [], "", "", "exact", "D", "syft", "false"⟩,
         ⟨"root", "1", "npm/root", "", [], "", "", "unique", "R", "syft", "true"⟩]
        [] false false).metadata.component = some (buildComponent
          [⟨"dep1", "2", "", "", [], "", "", "exact", "D", "syft", "false"⟩,
           ⟨"root", "1", "npm/root", "", [], "", "", "unique", "R", "syft", "true"⟩]
          ⟨"root", "1", "npm/root", "", [], "", "", "unique", "R", "syft", "true"⟩) ∧
    buildComponent
        [⟨"dep1", "2", "", "", [], "", "", "exact", "D", "syft", "false"⟩,
         ⟨"root", "1", "npm/root", "", [], "", "", "unique", "R", "syft", "true"⟩]
        ⟨"root", "1", "npm/root", "", [], "", "", "unique", "R", "syft", "true"⟩ ∈ (customMerge "s" "t"
        [⟨"dep1", "2", "", "", [], "", "", "exact", "D", "syft", "false"⟩,
         ⟨"root", "1", "npm/root", "", [], "", "", "unique", "R", "syft", "true"⟩]
        [] false false).components ∧
    (buildComponent
        [⟨"dep1", "2", "", "", [], "", "", "exact", "D", "syft", "false"⟩,
         ⟨"root", "1", "npm/root", "", [], "", "", "unique", "R", "syft", "true"⟩]
        ⟨"root", "1", "npm/root", "", [], "", "", "unique", "R", "syft", "true"⟩).name = "root" ∧
    (buildComponent
        [⟨"dep1", "2", "", "", [], "", "", "exact", "D", "syft", "false"⟩,
         ⟨"root", "1", "npm/root", "", [], "", "", "unique", "R", "syft", "true"⟩]
        ⟨"root", "1", "npm/root", "", [], "", "", "unique", "R", "syft", "true"⟩).version = "1" :=
  primary_preserved "s" "t"
    [⟨"dep1", "2", "", "", [], "", "", "exact", "D", "syft", "false"⟩,
     ⟨"root", "1", "npm/root", "", [], "", "", "unique", "R", "syft", "true"⟩]
    [] false false
    ⟨"root", "1", "npm/root", "", [], "", "", "unique", "R", "syft", "true"⟩
    (by decide) (by decide) (by decide) (by decide)

/-! ### C3 — fuzzy inclusion threshold (corrected) -/

theorem eq_of_length_eq_one {α : Type _} {l : List α} (h : l.length = 1)
    {a b : α} (ha : a ∈ l) (hb : b ∈ l) : a = b := by
  obtain ⟨x, rfl⟩ := List.length_eq_one.mp h
  rw [List.mem_singleton] at ha hb
  rw [ha, hb]

/-- When a `(name, version)` occurs in exactly one row, every row carrying
that key is that row. -/
theorem eq_of_occCount_one (rows : List PkgRow) (r : PkgRow) (hr : r ∈ rows)
    (hocc : occCount rows r.name r.version = 1) (q : PkgRow) (hq : q ∈ rows)
    (hn : q.name = r.name) (hv : q.version = r.version) : q = r := by
  have hqf : q ∈ rows.filter (fun x => x.name == r.name && x.version == r.version) :=
    List.mem_filter.mpr ⟨hq, by simp [hn, hv]⟩
  have hrf : r ∈ rows.filter (fun x => x.name == r.name && x.version == r.version) :=
    List.mem_filter.mpr ⟨hr, by simp⟩
  exact eq_of_length_eq_one hocc hqf hrf

/-- C3 counterexample: a single source stores the same fuzzy
`(name, version)` twice (the service saves packages without
deduplication), giving it occurrence_count 2 — the window counts rows, not
distinct sources — so the merge includes a fuzzy package reported by only
one source. -/
theorem fuzzy_single_source_included_counterexample :
    occCount
      [⟨"foo", "1.0", "", "", [], "", "", "fuzzy", "refA", "syft", "false"⟩,
       ⟨"foo", "1.0", "", "", [], "", "", "fuzzy", "refB", "syft", "false"⟩]
      "foo" "1.0" = 2 ∧
    dedupFirst
      (([⟨"foo", "1.0", "", "", [], "", "", "fuzzy", "refA", "syft", "false"⟩,
         ⟨"foo", "1.0", "", "", [], "", "", "fuzzy", "refB", "syft", "false"⟩] :
        List PkgRow).map PkgRow.scanner_name) = ["syft"] ∧
    buildComponent
      [⟨"foo", "1.0", "", "", [], "", "", "fuzzy", "refA", "syft", "false"⟩,
       ⟨"foo", "1.0", "", "", [], "", "", "fuzzy", "refB", "syft", "false"⟩]
      ⟨"foo", "1.0", "", "", [], "", "", "fuzzy", "refA", "syft", "false"⟩ ∈
      (customMerge "s" "t"
        [⟨"foo", "1.0", "", "", [], "", "", "fuzzy", "refA", "syft", "false"⟩,
         ⟨"foo", "1.0", "", "", [], "", "", "fuzzy", "refB", "syft", "false"⟩]
        [] true false).components ∧
    (buildComponent
      [⟨"foo", "1.0", "", "", [], "", "", "fuzzy", "refA", "syft", "false"⟩,
       ⟨"foo", "1.0", "", "", [], "", "", "fuzzy", "refB", "syft", "false"⟩]
      ⟨"foo", "1.0", "", "", [], "", "", "fuzzy", "refA", "syft", "false"⟩).name = "foo" := by
  refine ⟨by decide, by decide, by decide, rfl⟩

/-- C3 amended: the second pass includes a fuzzy package only when its
occurrence_count — the number of stored rows sharing its `(name,
version)`, with rows from one source counting separately — is at least 2;
a fuzzy package whose key is stored in exactly one row is never part of
the merged components unless captured as the primary package. -/
theorem fuzzy_single_row_not_included (scan_id now : String) (rows : List PkgRow)
    (deps : List DepRow) (include_all_unique exclude_github_actions : Bool)
    (r : PkgRow) (hr : r ∈ rows) (hst : r.match_status = "fuzzy")
    (hocc : occCount rows r.name r.version = 1) (hnp : r.primaryFlag ≠ "true") :
    ∀ c ∈ (customMerge scan_id now rows deps include_all_unique exclude_github_actions).components,
      ¬(c.name = r.name ∧ c.version = r.version) := by
  have hadd_pres : ∀ pkg : PkgRow, pkg ∈ rows → ¬(pkg.name = r.name ∧ pkg.version = r.version) →
      ∀ st : MergeState, (∀ c ∈ st.components, ¬(c.name = r.name ∧ c.version = r.version)) →
        ∀ c ∈ (addPkg rows pkg st).components, ¬(c.name = r.name ∧ c.version = r.version) := by
    intro pkg _ hne st hP c hc
    rw [addPkg_components] at hc
    rcases List.mem_append.mp hc with hc | hc
    · exact hP c hc
    · rw [List.mem_singleton] at hc
      subst hc
      exact hne
  have hP1 := firstPass_inv rows
    (fun st => ∀ c ∈ st.components, ¬(c.name = r.name ∧ c.version = r.version))
    (stableSort (mergeOrder rows) rows) ⟨[], [], [], none⟩
    (fun pkg hpkg hprimQ _ st hP =>
      hadd_pres pkg ((mem_stableSort _ _ _).mp hpkg)
        (fun hkey => hnp (by
          rw [← eq_of_occCount_one rows r hr hocc pkg ((mem_stableSort _ _ _).mp hpkg)
            hkey.1 hkey.2]
          exact hprimQ))
        st hP)
    (by intro c hc; cases hc)
  have hP2 := secondPass_inv rows include_all_unique exclude_github_actions
    (fun st => ∀ c ∈ st.components, ¬(c.name = r.name ∧ c.version = r.version))
    (fun pkg st hP c hc => hP c (seenStep_components pkg st ▸ hc))
    (stableSort (mergeOrder rows) rows)
    (firstPass rows (stableSort (mergeOrder rows) rows) ⟨[], [], [], none⟩)
    (fun pkg hpkg hcond st hP =>
      hadd_pres pkg ((mem_stableSort _ _ _).mp hpkg)
        (fun hkey => by
          have hpr : pkg = r := eq_of_occCount_one rows r hr hocc pkg
            ((mem_stableSort _ _ _).mp hpkg) hkey.1 hkey.2
          rw [hpr] at hcond
          rcases hcond with ⟨he, _⟩ | ⟨_, ho, _⟩ | ⟨hu, _, _, _⟩
          · rw [hst] at he
            exact absurd he (by decide)
          · rw [hocc] at ho
            exact absurd ho (by decide)
          · rw [hst] at hu
            exact absurd hu (by decide))
        st hP)
    hP1
  intro c hc
  rw [customMerge_components] at hc
  exact hP2 c hc

/-- Witness for the amended C3: a scan holding one single-row fuzzy
package and one exact package; the exact component is in the output and
is not the fuzzy package, which is excluded. -/
theorem fuzzy_single_row_not_included_witness :
    ¬((buildComponent
        [⟨"foo", "1.0", "", "", [], "", "", "fuzzy", "A", "syft", "false"⟩,
         ⟨"bar", "2.0", "", "", [], "", "", "exact", "B", "trivy", "false"⟩]
        ⟨"bar", "2.0", "", "", [], "", "", "exact", "B", "trivy", "false"⟩).name = "foo" ∧
      (buildComponent
        [⟨"foo", "1.0", "", "", [], "", "", "fuzzy", "A", "syft", "false"⟩,
         ⟨"bar", "2.0", "", "", [], "", "", "exact", "B", "trivy", "false"⟩]
        ⟨"bar", "2.0", "", "", [], "", "", "exact", "B", "trivy", "false"⟩).version = "1.0") :=
  fuzzy_single_row_not_included "s" "t"
    [⟨"foo", "1.0", "", "", [], "", "", "fuzzy", "A", "syft", "false"⟩,
     ⟨"bar", "2.0", "", "", [], "", "", "exact", "B", "trivy", "false"⟩]
    [] true false
    ⟨"foo", "1.0", "", "", [], "", "", "fuzzy", "A", "syft", "false"⟩
    (by decide) (by decide) (by decide) (by decide)
    (buildComponent
      [⟨"foo", "1.0", "", "", [], "", "", "fuzzy", "A", "syft", "false"⟩,
       ⟨"bar", "2.0", "", "", [], "", "", "exact", "B", "trivy", "false"⟩]
      ⟨"bar", "2.0", "", "", [], "", "", "exact", "B", "trivy", "false"⟩)
    (by decide)

/-! ### C10 — the noise-exclusion predicate (corrected) -/

/-- The source noise predicate agrees with the substring set listed by the
specification: the extra source pattern `"/app/temp"` is subsumed by
`"app/temp"` (and by `"temp"`). -/
theorem isGithubActionPackage_eq_spec (m : String) :
    isGithubActionPackage m = specNoiseMatch m := by
  cases h2 : specNoiseMatch m with
  | true =>
    rcases List.any_eq_true.mp h2 with ⟨pat, hpat, hc⟩
    apply List.any_eq_true.mpr
    refine ⟨pat, ?_, hc⟩
    simp only [noisePatternsSpec, List.mem_cons, List.not_mem_nil, or_false] at hpat
    simp only [githubActionPatterns, List.mem_cons, List.not_mem_nil, or_false]
    tauto
  | false =>
    cases h1 : isGithubActionPackage m with
    | false => rfl
    | true =>
      exfalso
      rcases List.any_eq_true.mp h1 with ⟨pat, hpat, hc⟩
      simp only [githubActionPatterns, List.mem_cons, List.not_mem_nil, or_false] at hpat
      have hspec : specNoiseMatch m = true := by
        apply List.any_eq_true.mpr
        rcases hpat with rfl | rfl | rfl | rfl | rfl | rfl | rfl | rfl | rfl | rfl | rfl
        · exact ⟨"actions/", by simp [noisePatternsSpec], hc⟩
        · exact ⟨"github/", by simp [noisePatternsSpec], hc⟩
        · exact ⟨".github/", by simp [noisePatternsSpec], hc⟩
        · exact ⟨"workflow/", by simp [noisePatternsSpec], hc⟩
        · exact ⟨"action-", by simp [noisePatternsSpec], hc⟩
        · exact ⟨"app/temp", by simp [noisePatternsSpec],
            containsStr_of_infix ⟨['/'], [], by decide⟩ hc⟩
        · exact ⟨"app/temp", by simp [noisePatternsSpec], hc⟩
        · exact ⟨"temp", by simp [noisePatternsSpec], hc⟩
        · exact ⟨".yaml", by simp [noisePatternsSpec], hc⟩
        · exact ⟨"setup", by simp [noisePatternsSpec], hc⟩
        · exact ⟨"com.github", by simp [noisePatternsSpec], hc⟩
      rw [h2] at hspec
      cases hspec

/-- C10 counterexample: a primary `unique`-status package named
`setuptools` matches the noise set (it contains `setup`), yet the primary
capture pass includes it in the merged output even under the exclusion
policy — the claimed unconditional exclusion does not hold for the
captured primary. -/
theorem noise_exclusion_counterexample :
    isGithubActionPackage "setuptools" = true ∧
    buildComponent
      [⟨"setuptools", "1", "", "", [], "", "", "unique", "A", "syft", "true"⟩]
      ⟨"setuptools", "1", "", "", [], "", "", "unique", "A", "syft", "true"⟩ ∈
      (customMerge "s" "t"
        [⟨"setuptools", "1", "", "", [], "", "", "unique", "A", "syft", "true"⟩]
        [] true true).components ∧
    (buildComponent
      [⟨"setuptools", "1", "", "", [], "", "", "unique", "A", "syft", "true"⟩]
      ⟨"setuptools", "1", "", "", [], "", "", "unique", "A", "syft", "true"⟩).name =
      "setuptools" := by
  refine ⟨by decide, by decide, rfl⟩

/-- C10 amended: the noise predicate holds exactly when the lower-cased
name contains a member of the substring set listed by the specification;
and under `exclude_github_actions`, a noise-named package all of whose
rows are non-primary `unique`-status rows is excluded from the merged
components — primary capture is the one path around the exclusion. -/
theorem noise_unique_excluded (scan_id now : String) (rows : List PkgRow)
    (deps : List DepRow) (include_all_unique : Bool) (n : String)
    (hnoise : isGithubActionPackage n = true)
    (hall : ∀ q ∈ rows, q.name = n → q.match_status = "unique" ∧ q.primaryFlag ≠ "true") :
    (∀ m, isGithubActionPackage m = specNoiseMatch m) ∧
    ∀ c ∈ (customMerge scan_id now rows deps include_all_unique true).components,
      c.name ≠ n := by
  refine ⟨isGithubActionPackage_eq_spec, ?_⟩
  have hadd_pres : ∀ pkg : PkgRow, ¬ pkg.name = n →
      ∀ st : MergeState, (∀ c ∈ st.components, c.name ≠ n) →
        ∀ c ∈ (addPkg rows pkg st).components, c.name ≠ n := by
    intro pkg hne st hP c hc
    rw [addPkg_components] at hc
    rcases List.mem_append.mp hc with hc | hc
    · exact hP c hc
    · rw [List.mem_singleton] at hc
      subst hc
      exact hne
  have hP1 := firstPass_inv rows (fun st => ∀ c ∈ st.components, c.name ≠ n)
    (stableSort (mergeOrder rows) rows) ⟨[], [], [], none⟩
    (fun pkg hpkg hprimQ _ st hP =>
      hadd_pres pkg
        (fun hname => (hall pkg ((mem_stableSort _ _ _).mp hpkg) hname).2 hprimQ)
        st hP)
    (by intro c hc; cases hc)
  have hP2 := secondPass_inv rows include_all_unique true
    (fun st => ∀ c ∈ st.components, c.name ≠ n)
    (fun pkg st hP c hc => hP c (seenStep_components pkg st ▸ hc))
    (stableSort (mergeOrder rows) rows)
    (firstPass rows (stableSort (mergeOrder rows) rows) ⟨[], [], [], none⟩)
    (fun pkg hpkg hcond st hP =>
      hadd_pres pkg
        (fun hname => by
          have hq := hall pkg ((mem_stableSort _ _ _).mp hpkg) hname
          rcases hcond with ⟨he, _⟩ | ⟨hf, _, _⟩ | ⟨_, hnn, _, _⟩
          · rw [hq.1] at he
            exact absurd he (by decide)
          · rw [hq.1] at hf
            exact absurd hf (by decide)
          · rw [hname, hnoise] at hnn
            exact absurd hnn (by decide))
        st hP)
    hP1
  intro c hc
  rw [customMerge_components] at hc
  exact hP2 c hc

/-- Witness for the amended C10: a unit with a non-primary unique row
named `setuptools` and an exact row; under the exclusion policy the exact
component survives and no output component is named `setuptools`. -/
theorem noise_unique_excluded_witness :
    (buildComponent
      [⟨"setuptools", "1", "", "", [], "", "", "unique", "A", "syft", "false"⟩,
       ⟨"requests", "2", "", "", [], "", "", "exact", "B", "trivy", "false"⟩]
      ⟨"requests", "2", "", "", [], "", "", "exact", "B", "trivy", "false"⟩).name ≠
      "setuptools" :=
  (noise_unique_excluded "s" "t"
    [⟨"setuptools", "1", "", "", [], "", "", "unique", "A", "syft", "false"⟩,
     ⟨"requests", "2", "", "", [], "", "", "exact", "B", "trivy", "false"⟩]
    [] true "setuptools" (by decide) (by decide)).2
    (buildComponent
      [⟨"setuptools", "1", "", "", [], "", "", "unique", "A", "syft", "false"⟩,
       ⟨"requests", "2", "", "", [], "", "", "exact", "B", "trivy", "false"⟩]
      ⟨"requests", "2", "", "", [], "", "", "exact", "B", "trivy", "false"⟩)
    (by decide)

/-! ### C5 — dependency integrity (corrected) -/

theorem refInv_empty (rows : List PkgRow) : RefInv rows ⟨[], [], [], none⟩ :=
  ⟨fun _ h => absurd h (List.not_mem_nil _), fun _ h => absurd h (List.not_mem_nil _)⟩

theorem refInv_seenStep (rows : List PkgRow) (pkg : PkgRow) (st : MergeState)
    (hpkg : pkg ∈ rows) (hkey : (pkg.name, pkg.version) ∈ st.seen)
    (hI : RefInv rows st) : RefInv rows (seenStep pkg st) := by
  obtain ⟨hmap, hseen⟩ := hI
  constructor
  · intro kv hkv
    have hkv' : kv ∈ ((pkg.scanner_name, pkg.original_ref), refOf pkg) :: st.idMap := hkv
    rcases List.mem_cons.mp hkv' with rfl | hkv'
    · obtain ⟨c, hc, hprop⟩ := hseen _ hkey
      exact List.mem_map.mpr ⟨c, hc, hprop pkg hpkg rfl rfl⟩
    · exact hmap kv hkv'
  · intro k hk
    exact hseen k hk

theorem refInv_addPkg (rows : List PkgRow)
    (Hpurl : ∀ r1 ∈ rows, ∀ r2 ∈ rows, r1.name = r2.name → r1.version = r2.version →
      r1.purl = r2.purl)
    (pkg : PkgRow) (hpkg : pkg ∈ rows) (st : MergeState) (hI : RefInv rows st) :
    RefInv rows (addPkg rows pkg st) := by
  obtain ⟨hmap, hseen⟩ := hI
  constructor
  · intro kv hkv
    have hkv' : kv ∈ ((pkg.scanner_name, pkg.original_ref),
        (buildComponent rows pkg).bomRef) :: st.idMap := hkv
    rcases List.mem_cons.mp hkv' with rfl | hkv'
    · exact List.mem_map.mpr ⟨buildComponent rows pkg,
        List.mem_append_right _ (List.mem_singleton.mpr rfl), rfl⟩
    · obtain ⟨c, hc, hcb⟩ := List.mem_map.mp (hmap kv hkv')
      exact List.mem_map.mpr ⟨c, List.mem_append_left _ hc, hcb⟩
  · intro k hk
    have hk' : k ∈ st.seen ++ [(pkg.name, pkg.version)] := hk
    rcases List.mem_append.mp hk' with hk' | hk'
    · obtain ⟨c, hc, hprop⟩ := hseen k hk'
      exact ⟨c, List.mem_append_left _ hc, hprop⟩
    · rw [List.mem_singleton] at hk'
      subst hk'
      refine ⟨buildComponent rows pkg,
        List.mem_append_right _ (List.mem_singleton.mpr rfl), ?_⟩
      intro q hq hn hv
      show refOf pkg = refOf q
      have hpurl : q.purl = pkg.purl := Hpurl q hq pkg hpkg hn hv
      unfold refOf
      rw [hpurl, hn, hv]

theorem secondPass_refInv (rows : List PkgRow) (iu ega : Bool)
    (Hpurl : ∀ r1 ∈ rows, ∀ r2 ∈ rows, r1.name = r2.name → r1.version = r2.version →
      r1.purl = r2.purl) :
    ∀ (l : List PkgRow) (st : MergeState), (∀ q ∈ l, q ∈ rows) → RefInv rows st →
      RefInv rows (secondPass rows iu ega l st)
  | [], st => fun _ h => h
  | pkg :: rest, st => by
    intro hl hI
    have hl' : ∀ q ∈ rest, q ∈ rows := fun q hq => hl q (List.mem_cons_of_mem _ hq)
    have hpkg : pkg ∈ rows := hl pkg (List.mem_cons_self _ _)
    simp only [secondPass]
    split_ifs with h1 <;>
      first
        | exact secondPass_refInv rows iu ega Hpurl rest _ hl'
            (refInv_seenStep rows pkg st hpkg h1 hI)
        | exact secondPass_refInv rows iu ega Hpurl rest _ hl'
            (refInv_addPkg rows Hpurl pkg hpkg st hI)
        | exact secondPass_refInv rows iu ega Hpurl rest _ hl' hI

theorem firstPass_refInv (rows : List PkgRow)
    (Hpurl : ∀ r1 ∈ rows, ∀ r2 ∈ rows, r1.name = r2.name → r1.version = r2.version →
      r1.purl = r2.purl) :
    ∀ (l : List PkgRow) (st : MergeState), (∀ q ∈ l, q ∈ rows) → RefInv rows st →
      RefInv rows (firstPass rows l st)
  | [], st => fun _ h => h
  | pkg :: rest, st => by
    intro hl hI
    have hl' : ∀ q ∈ rest, q ∈ rows := fun q hq => hl q (List.mem_cons_of_mem _ hq)
    have hpkg : pkg ∈ rows := hl pkg (List.mem_cons_self _ _)
    simp only [firstPass]
    split_ifs <;>
      first
        | exact firstPass_refInv rows Hpurl rest _ hl' hI
        | exact refInv_addPkg rows Hpurl pkg hpkg st hI

theorem validDepPairs_refs (idMap : List ((String × String) × String))
    (deps : List DepRow) (refs : List String)
    (hmap : ∀ kv ∈ idMap, kv.2 ∈ refs) :
    ∀ pc ∈ validDepPairs idMap deps, pc.1 ∈ refs ∧ pc.2 ∈ refs := by
  intro pc hpc
  unfold validDepPairs at hpc
  rw [List.mem_filterMap] at hpc
  obtain ⟨dep, _, hdep⟩ := hpc
  cases hp : lookupAssoc idMap (dep.parent_scanner, dep.parent_ref) with
  | none => rw [hp] at hdep; cases hdep
  | some pv =>
    cases hc : lookupAssoc idMap (dep.child_scanner, dep.child_ref) with
    | none => rw [hp, hc] at hdep; cases hdep
    | some cv =>
      rw [hp, hc] at hdep
      have hdep' : (if (pv == "" || cv == "") = true then (none : Option (String × String))
          else some (pv, cv)) = some pc := hdep
      by_cases hb : (pv == "" || cv == "") = true
      · rw [if_pos hb] at hdep'
        cases hdep'
      · rw [if_neg hb] at hdep'
        obtain ⟨kv1, hkv1, he1⟩ := lookupAssoc_mem idMap _ pv hp
        obtain ⟨kv2, hkv2, he2⟩ := lookupAssoc_mem idMap _ cv hc
        have hpc1 : pc = (pv, cv) := by
          injection hdep' with h
          rw [← h]
        rw [hpc1]
        exact ⟨he1 ▸ hmap kv1 hkv1, he2 ▸ hmap kv2 hkv2⟩

theorem addGroup_pred {β : Type _} (P : String → Prop) (Q : β → Prop) :
    ∀ (acc : List (String × List β)) (s : String) (x : β),
      (∀ g ∈ acc, P g.1 ∧ ∀ y ∈ g.2, Q y) → P s → Q x →
      ∀ g ∈ addGroup acc s x, P g.1 ∧ ∀ y ∈ g.2, Q y
  | [], s, x => by
    intro _ hP hQ g hg
    simp only [addGroup, List.mem_singleton] at hg
    subst hg
    refine ⟨hP, ?_⟩
    intro y hy
    rw [List.mem_singleton] at hy
    subst hy
    exact hQ
  | (q, xs) :: rest, s, x => by
    intro hacc hP hQ g hg
    simp only [addGroup] at hg
    by_cases hqs : (q == s) = true
    · rw [if_pos hqs] at hg
      rcases List.mem_cons.mp hg with rfl | hg
      · have h0 := hacc (q, xs) (List.mem_cons_self _ _)
        refine ⟨h0.1, ?_⟩
        intro y hy
        rcases List.mem_append.mp hy with hy | hy
        · exact h0.2 y hy
        · rw [List.mem_singleton] at hy
          subst hy
          exact hQ
      · exact hacc g (List.mem_cons_of_mem _ hg)
    · rw [if_neg hqs] at hg
      rcases List.mem_cons.mp hg with rfl | hg
      · exact hacc (q, xs) (List.mem_cons_self _ _)
      · exact addGroup_pred P Q rest s x
          (fun g' hg' => hacc g' (List.mem_cons_of_mem _ hg')) hP hQ g hg

theorem foldl_addGroup_pred {β : Type _} (P : String → Prop) (Q : β → Prop) :
    ∀ (ps : List (String × β)) (acc : List (String × List β)),
      (∀ pc ∈ ps, P pc.1 ∧ Q pc.2) → (∀ g ∈ acc, P g.1 ∧ ∀ y ∈ g.2, Q y) →
      ∀ g ∈ ps.foldl (fun acc pc => addGroup acc pc.1 pc.2) acc, P g.1 ∧ ∀ y ∈ g.2, Q y
  | [], acc => fun _ hacc => hacc
  | pc :: rest, acc => by
    intro hps hacc
    have h0 := hps pc (List.mem_cons_self _ _)
    exact foldl_addGroup_pred P Q rest (addGroup acc pc.1 pc.2)
      (fun pc' hpc' => hps pc' (List.mem_cons_of_mem _ hpc'))
      (addGroup_pred P Q acc pc.1 pc.2 hacc h0.1 h0.2)

theorem consolidateDeps_refs (pairs : List (String × String)) (refs : List String)
    (h : ∀ pc ∈ pairs, pc.1 ∈ refs ∧ pc.2 ∈ refs) :
    ∀ d ∈ consolidateDeps pairs, d.ref ∈ refs ∧ ∀ x ∈ d.dependsOn, x ∈ refs := by
  intro d hd
  unfold consolidateDeps at hd
  rw [List.mem_map] at hd
  obtain ⟨g, hg, rfl⟩ := hd
  have hmain := foldl_addGroup_pred (· ∈ refs) (· ∈ refs) pairs [] h
    (fun g' hg' => absurd hg' (List.not_mem_nil _)) g hg
  exact ⟨hmain.1, fun x hx => hmain.2 x ((mem_dedupFirst _ _).mp hx)⟩

/-- C5 counterexample: two sources report the same `(name, version)` with
different purls; the de-duplicated row registers a bom-ref synthesized
from its own purl, which names no selected component, and a dependency
through it survives as a dangling reference. -/
theorem dependency_integrity_counterexample :
    (customMerge "s" "t"
      [⟨"foo", "1", "npm/foo", "", [], "", "", "exact", "A", "syft", "false"⟩,
       ⟨"foo", "1", "pypi/foo", "", [], "", "", "exact", "B", "trivy", "false"⟩,
       ⟨"bar", "1", "npm/bar", "", [], "", "", "exact", "C", "trivy", "false"⟩]
      [⟨"trivy", "B", "trivy", "C"⟩] true false).dependencies =
      [⟨"pkg:pypi/foo", ["pkg:npm/bar"]⟩] ∧
    "pkg:pypi/foo" ∉ (customMerge "s" "t"
      [⟨"foo", "1", "npm/foo", "", [], "", "", "exact", "A", "syft", "false"⟩,
       ⟨"foo", "1", "pypi/foo", "", [], "", "", "exact", "B", "trivy", "false"⟩,
       ⟨"bar", "1", "npm/bar", "", [], "", "", "exact", "C", "trivy", "false"⟩]
      [⟨"trivy", "B", "trivy", "C"⟩] true false).components.map Component.bomRef := by
  refine ⟨by decide, by decide⟩

/-- C5 amended: when all rows sharing a `(name, version)` carry the same
purl (so every duplicate registers the included bom-ref), every output
dependency ref and every entry of its dependsOn list is the bom-ref of
some component in the output component list, and edges with an unresolved
endpoint have been dropped. -/
theorem dependency_integrity (scan_id now : String) (rows : List PkgRow)
    (deps : List DepRow) (include_all_unique exclude_github_actions : Bool)
    (Hpurl : ∀ r1 ∈ rows, ∀ r2 ∈ rows, r1.name = r2.name → r1.version = r2.version →
      r1.purl = r2.purl) :
    ∀ d ∈ (customMerge scan_id now rows deps include_all_unique exclude_github_actions).dependencies,
      d.ref ∈ (customMerge scan_id now rows deps include_all_unique exclude_github_actions).components.map Component.bomRef ∧
      ∀ x ∈ d.dependsOn,
        x ∈ (customMerge scan_id now rows deps include_all_unique exclude_github_actions).components.map Component.bomRef := by
  have hsort : ∀ q ∈ stableSort (mergeOrder rows) rows, q ∈ rows :=
    fun q hq => (mem_stableSort _ _ _).mp hq
  have hInv : RefInv rows (secondPass rows include_all_unique exclude_github_actions
      (stableSort (mergeOrder rows) rows)
      (firstPass rows (stableSort (mergeOrder rows) rows) ⟨[], [], [], none⟩)) :=
    secondPass_refInv rows include_all_unique exclude_github_actions Hpurl _ _ hsort
      (firstPass_refInv rows Hpurl _ _ hsort (refInv_empty rows))
  have hpairs := validDepPairs_refs _ deps _ hInv.1
  intro d hd
  rw [customMerge_dependencies] at hd
  have hres := consolidateDeps_refs _ _
    (fun pc hpc => hpairs pc ((mem_dedupFirst _ _).mp hpc)) d hd
  rw [customMerge_components]
  exact hres

/-- Witness for the amended C5: a scan with agreeing purls and one stored
edge; the surviving dependency and its target resolve to output bom-refs. -/
theorem dependency_integrity_witness :
    (⟨"pkg:npm/a", ["pkg:npm/b"]⟩ : DepOut).ref ∈ (customMerge "s" "t"
      [⟨"a", "1", "npm/a", "", [], "", "", "exact", "A", "syft", "false"⟩,
       ⟨"b", "1", "npm/b", "", [], "", "", "exact", "B", "syft", "false"⟩]
      [⟨"syft", "A", "syft", "B"⟩] true false).components.map Component.bomRef ∧
    "pkg:npm/b" ∈ (customMerge "s" "t"
      [⟨"a", "1", "npm/a", "", [], "", "", "exact", "A", "syft", "false"⟩,
       ⟨"b", "1", "npm/b", "", [], "", "", "exact", "B", "syft", "false"⟩]
      [⟨"syft", "A", "syft", "B"⟩] true false).components.map Component.bomRef := by
  have h := dependency_integrity "s" "t"
    [⟨"a", "1", "npm/a", "", [], "", "", "exact", "A", "syft", "false"⟩,
     ⟨"b", "1", "npm/b", "", [], "", "", "exact", "B", "syft", "false"⟩]
    [⟨"syft", "A", "syft", "B"⟩] true false (by decide)
    ⟨"pkg:npm/a", ["pkg:npm/b"]⟩ (by decide)
  exact ⟨h.1, h.2 "pkg:npm/b" (by decide)⟩

/-! ### C1 — exact classification across distinct sources -/

/-- C1: any two package rows agreeing on `(name, version)` and coming from
two distinct sources put their group into the exact-match report, tagged
`exact`, with both sources listed and the reported scanner count equal to
the number of distinct sources contributing that `(name, version)`. -/
theorem exact_match_classification (rows : List PkgRow) (p1 p2 : PkgRow)
    (h1 : p1 ∈ rows) (h2 : p2 ∈ rows) (hn : p1.name = p2.name)
    (hv : p1.version = p2.version) (hs : p1.scanner_name ≠ p2.scanner_name) :
    exactEntryFor rows p1.name p1.version ∈ findExactMatches rows ∧
    (exactEntryFor rows p1.name p1.version).match_type = "exact" ∧
    p1.scanner_name ∈ (exactEntryFor rows p1.name p1.version).found_in ∧
    p2.scanner_name ∈ (exactEntryFor rows p1.name p1.version).found_in ∧
    (exactEntryFor rows p1.name p1.version).scanner_count =
      ((rows.filter (fun r => r.name == p1.name && r.version == p1.version)).map
        PkgRow.scanner_name).toFinset.card := by
  have hs1 : p1.scanner_name ∈ groupScanners rows p1.name p1.version := by
    rw [groupScanners, mem_dedupFirst]
    exact List.mem_map.mpr ⟨p1, List.mem_filter.mpr ⟨h1, by simp⟩, rfl⟩
  have hs2 : p2.scanner_name ∈ groupScanners rows p1.name p1.version := by
    rw [groupScanners, mem_dedupFirst]
    exact List.mem_map.mpr ⟨p2, List.mem_filter.mpr ⟨h2, by simp [hn.symm, hv.symm]⟩, rfl⟩
  have hlen : 1 < (groupScanners rows p1.name p1.version).length :=
    two_le_length_of_mem_ne hs1 hs2 hs
  refine ⟨?_, rfl, hs1, hs2, length_dedupFirst_eq_card _⟩
  rw [findExactMatches, mem_stableSort, List.mem_filterMap]
  refine ⟨(p1.name, p1.version), ?_, ?_⟩
  · rw [mem_dedupFirst]
    exact List.mem_map.mpr ⟨p1, h1, rfl⟩
  · rw [if_pos hlen]

/-- Witness for C1: three sources report `left-pad 1.0.0`; the group is an
exact entry listing the sources with scanner count 3. -/
theorem exact_match_classification_witness :
    exactEntryFor
      [⟨"left-pad", "1.0.0", "", "", [], "", "", "x", "A", "syft", "false"⟩,
       ⟨"left-pad", "1.0.0", "", "", [], "", "", "x", "B", "trivy", "false"⟩,
       ⟨"left-pad", "1.0.0", "", "", [], "", "", "x", "C", "cdxgen", "false"⟩]
      "left-pad" "1.0.0" ∈ findExactMatches
      [⟨"left-pad", "1.0.0", "", "", [], "", "", "x", "A", "syft", "false"⟩,
       ⟨"left-pad", "1.0.0", "", "", [], "", "", "x", "B", "trivy", "false"⟩,
       ⟨"left-pad", "1.0.0", "", "", [], "", "", "x", "C", "cdxgen", "false"⟩] ∧
    (exactEntryFor
      [⟨"left-pad", "1.0.0", "", "", [], "", "", "x", "A", "syft", "false"⟩,
       ⟨"left-pad", "1.0.0", "", "", [], "", "", "x", "B", "trivy", "false"⟩,
       ⟨"left-pad", "1.0.0", "", "", [], "", "", "x", "C", "cdxgen", "false"⟩]
      "left-pad" "1.0.0").match_type = "exact" ∧
    "syft" ∈ (exactEntryFor
      [⟨"left-pad", "1.0.0", "", "", [], "", "", "x", "A", "syft", "false"⟩,
       ⟨"left-pad", "1.0.0", "", "", [], "", "", "x", "B", "trivy", "false"⟩,
       ⟨"left-pad", "1.0.0", "", "", [], "", "", "x", "C", "cdxgen", "false"⟩]
      "left-pad" "1.0.0").found_in ∧
    "trivy" ∈ (exactEntryFor
      [⟨"left-pad", "1.0.0", "", "", [], "", "", "x", "A", "syft", "false"⟩,
       ⟨"left-pad", "1.0.0", "", "", [], "", "", "x", "B", "trivy", "false"⟩,
       ⟨"left-pad", "1.0.0", "", "", [], "", "", "x", "C", "cdxgen", "false"⟩]
      "left-pad" "1.0.0").found_in ∧
    (exactEntryFor
      [⟨"left-pad", "1.0.0", "", "", [], "", "", "x", "A", "syft", "false"⟩,
       ⟨"left-pad", "1.0.0", "", "", [], "", "", "x", "B", "trivy", "false"⟩,
       ⟨"left-pad", "1.0.0", "", "", [], "", "", "x", "C", "cdxgen", "false"⟩]
      "left-pad" "1.0.0").scanner_count =
      ((([⟨"left-pad", "1.0.0", "", "", [], "", "", "x", "A", "syft", "false"⟩,
         ⟨"left-pad", "1.0.0", "", "", [], "", "", "x", "B", "trivy", "false"⟩,
         ⟨"left-pad", "1.0.0", "", "", [], "", "", "x", "C", "cdxgen", "false"⟩] :
        List PkgRow).filter (fun r => r.name == "left-pad" && r.version == "1.0.0")).map
        PkgRow.scanner_name).toFinset.card :=
  exact_match_classification
    [⟨"left-pad", "1.0.0", "", "", [], "", "", "x", "A", "syft", "false"⟩,
     ⟨"left-pad", "1.0.0", "", "", [], "", "", "x", "B", "trivy", "false"⟩,
     ⟨"left-pad", "1.0.0", "", "", [], "", "", "x", "C", "cdxgen", "false"⟩]
    ⟨"left-pad", "1.0.0", "", "", [], "", "", "x", "A", "syft", "false"⟩
    ⟨"left-pad", "1.0.0", "", "", [], "", "", "x", "B", "trivy", "false"⟩
    (by decide) (by decide) rfl rfl (by decide)

/-! ### C9 — the agreement score formula -/

/-- C9: for every source present in the totals, the agreement score of
`analyze_scan_packages` equals
`max(0, (exact_count + 0.5 * fuzzy_count) / total * 100 - (unique_count / total) * 10)`
with the counts taken over the analysis results, and a source with zero
total packages scores 0. -/
theorem agreement_score (trgm : String → String → ℚ) (rows : List PkgRow)
    (s : String) (t : Nat)
    (h : (s, t) ∈ (analyzeScanPackages trgm rows).total_counts) :
    (s, if t = 0 then (0 : ℚ) else
      max 0 (((((analyzeScanPackages trgm rows).common_packages.filter
            (fun m => m.found_in.contains s)).length : ℚ) +
          (1/2 : ℚ) * (((analyzeScanPackages trgm rows).fuzzy_matches.filter
            (fun m => m.scanner1 == s || m.scanner2 == s)).length : ℚ)) / (t : ℚ) * 100 -
        ((((lookupAssoc (analyzeScanPackages trgm rows).unique_packages s).getD []).length : ℚ) /
          (t : ℚ)) * 10))
      ∈ (analyzeScanPackages trgm rows).scores := by
  simp only [analyzeScanPackages] at h ⊢
  refine List.mem_map.mpr ⟨(s, t), h, ?_⟩
  by_cases ht : t = 0
  · simp [ht]
  · simp only [ht, if_false]
    rw [Prod.mk.injEq]
    refine ⟨rfl, ?_⟩
    congr 1
    ring

/-- Witness for C9: one scanner with one stored package. -/
theorem agreement_score_witness :
    ("syft", if (1 : Nat) = 0 then (0 : ℚ) else
      max 0 (((((analyzeScanPackages (fun _ _ => 0)
            [⟨"foo", "1.0", "", "", [], "", "", "x", "A", "syft", "false"⟩]).common_packages.filter
            (fun m => m.found_in.contains "syft")).length : ℚ) +
          (1/2 : ℚ) * (((analyzeScanPackages (fun _ _ => 0)
            [⟨"foo", "1.0", "", "", [], "", "", "x", "A", "syft", "false"⟩]).fuzzy_matches.filter
            (fun m => m.scanner1 == "syft" || m.scanner2 == "syft")).length : ℚ)) / ((1 : Nat) : ℚ) * 100 -
        ((((lookupAssoc (analyzeScanPackages (fun _ _ => 0)
            [⟨"foo", "1.0", "", "", [], "", "", "x", "A", "syft", "false"⟩]).unique_packages
            "syft").getD []).length : ℚ) / ((1 : Nat) : ℚ)) * 10))
      ∈ (analyzeScanPackages (fun _ _ => 0)
        [⟨"foo", "1.0", "", "", [], "", "", "x", "A", "syft", "false"⟩]).scores :=
  agreement_score (fun _ _ => 0)
    [⟨"foo", "1.0", "", "", [], "", "", "x", "A", "syft", "false"⟩] "syft" 1 (by decide)

/-! ### C2 — the fuzzy similarity threshold -/

/-- C2: every row of the fuzzy-match report satisfies the strict threshold
on the overall similarity of its pair — so a pair whose overall score
(the mean of the normalized-edit-distance similarities of names and
versions, with empty-against-empty similarity defined as 0) is at most
`0.8` never appears as a fuzzy-match entry, i.e. that pair alone never
causes a package to be reported fuzzy. -/
theorem fuzzy_threshold (trgm : String → String → ℚ) (rows : List PkgRow) (e : FuzzyRow)
    (h : e ∈ findFuzzyMatches trgm rows (4/5)) :
    ¬ (overallSimilarity e.name1 e.version1 e.name2 e.version2 ≤ 4/5) := by
  simp only [findFuzzyMatches] at h
  have h1 := List.take_subset _ _ h
  have h2 := (mem_stableSort _ _ _).mp h1
  rw [List.mem_filter] at h2
  obtain ⟨hmem, hcond⟩ := h2
  have hgt : e.overall_similarity > 4/5 := of_decide_eq_true hcond
  rw [List.mem_map] at hmem
  obtain ⟨pc, _, rfl⟩ := hmem
  intro hle
  exact absurd hle (not_le.mpr hgt)

/-- Witness for C2: `foo` and `fooo` at equal versions from two scanners
score `((1 - 1/4) + 1)/2 = 7/8 > 4/5` and form a fuzzy-match entry. -/
theorem fuzzy_threshold_witness :
    mkFuzzyRow (fun _ _ => (1 : ℚ)) ⟨"foo", "1.0", "alpha"⟩ ⟨"fooo", "1.0", "beta"⟩ ∈
      findFuzzyMatches (fun _ _ => (1 : ℚ))
        [⟨"foo", "1.0", "", "", [], "", "", "x", "A", "alpha", "false"⟩,
         ⟨"fooo", "1.0", "", "", [], "", "", "x", "B", "beta", "false"⟩] (4/5) ∧
    ¬ (overallSimilarity "foo" "1.0" "fooo" "1.0" ≤ 4/5) := by
  have hd1 : decide ((1 : ℚ) > 7/10) = true := by norm_num
  have hd2 : decide ((1 : ℚ) > 1/2) = true := by norm_num
  have hdp : distinctPackages
      [⟨"foo", "1.0", "", "", [], "", "", "x", "A", "alpha", "false"⟩,
       ⟨"fooo", "1.0", "", "", [], "", "", "x", "B", "beta", "false"⟩] =
      [⟨"foo", "1.0", "alpha"⟩, ⟨"fooo", "1.0", "beta"⟩] := by decide
  have hcand : fuzzyCandidates (fun _ _ => (1 : ℚ))
      [⟨"foo", "1.0", "", "", [], "", "", "x", "A", "alpha", "false"⟩,
       ⟨"fooo", "1.0", "", "", [], "", "", "x", "B", "beta", "false"⟩] =
      [(⟨"foo", "1.0", "alpha"⟩, ⟨"fooo", "1.0", "beta"⟩)] := by
    unfold fuzzyCandidates
    rw [hdp]
    simp only [List.flatMap_cons, List.flatMap_nil, List.filter_cons, List.filter_nil,
      List.map_cons, List.map_nil, List.append_nil, hd1, hd2]
    decide
  have hlev1 : levenshtein "foo" "fooo" = 1 := by decide
  have hlev2 : levenshtein "1.0" "1.0" = 0 := by decide
  have hover : overallSimilarity "foo" "1.0" "fooo" "1.0" > 4/5 := by
    unfold overallSimilarity strSimilarity
    rw [hlev1, hlev2]
    norm_num [String.length]
  have hmem : mkFuzzyRow (fun _ _ => (1 : ℚ)) ⟨"foo", "1.0", "alpha"⟩ ⟨"fooo", "1.0", "beta"⟩ ∈
      findFuzzyMatches (fun _ _ => (1 : ℚ))
        [⟨"foo", "1.0", "", "", [], "", "", "x", "A", "alpha", "false"⟩,
         ⟨"fooo", "1.0", "", "", [], "", "", "x", "B", "beta", "false"⟩] (4/5) := by
    simp only [findFuzzyMatches, hcand, List.map_cons, List.map_nil]
    have hd3 : decide ((mkFuzzyRow (fun _ _ => (1 : ℚ)) ⟨"foo", "1.0", "alpha"⟩
        ⟨"fooo", "1.0", "beta"⟩).overall_similarity > (4/5 : ℚ)) = true := by
      rw [decide_eq_true_eq]
      exact hover
    simp only [List.filter_cons, List.filter_nil, hd3, if_true]
    simp [stableSort, orderedInsert]
  refine ⟨hmem, ?_⟩
  have hres := fuzzy_threshold (fun _ _ => (1 : ℚ))
    [⟨"foo", "1.0", "", "", [], "", "", "x", "A", "alpha", "false"⟩,
     ⟨"fooo", "1.0", "", "", [], "", "", "x", "B", "beta", "false"⟩]
    (mkFuzzyRow (fun _ _ => (1 : ℚ)) ⟨"foo", "1.0", "alpha"⟩ ⟨"fooo", "1.0", "beta"⟩) hmem
  exact hres

end SBOMGen
